import Mathlib

/-!
Shallow embedding of the thread-identifier allocation subsystem of the
`threadid` Rust crate (files `src/live.rs`, `src/unique.rs`, `src/std.rs`).

Machine integers are modelled as `Nat` with explicit bounds checks exactly
where the source performs them (`checked_add`, `NonMaxUsize::new`,
`NonZeroU64::new`).  A Rust panic is modelled as `Except.error`/`none`.
The `BinaryHeap<Reverse<NonMaxUsize>>` free list is modelled as a `List Nat`
with multiset semantics: `push` conses, `pop` removes one occurrence of the
minimum element (`Reverse` turns the max-heap into a min-heap).
-/

/-- `usize::MAX` on a 64-bit target; also the value excluded by `NonMaxUsize`. -/
def USIZE_MAX : Nat := 2 ^ 64 - 1

/-- `u64::MAX`, bound of the monotonic counter in `unique.rs`. -/
def U64_MAX : Nat := 2 ^ 64 - 1

/-- `usize::checked_add`: `some` iff the mathematical sum fits in a usize. -/
def usizeCheckedAdd (a b : Nat) : Option Nat :=
  if a + b ≤ USIZE_MAX then some (a + b) else none

/-- `u64::checked_add`: `some` iff the mathematical sum fits in a u64. -/
def u64CheckedAdd (a b : Nat) : Option Nat :=
  if a + b ≤ U64_MAX then some (a + b) else none

/-- `NonMaxUsize::new`: refuses the reserved sentinel `usize::MAX`. -/
def NonMaxUsize.new (x : Nat) : Option Nat :=
  if x = USIZE_MAX then none else some x

/-- `BinaryHeap::push` on `BinaryHeap<Reverse<NonMaxUsize>>` (multiset insert). -/
def heapPushMin (x : Nat) (h : List Nat) : List Nat := x :: h

/-- `BinaryHeap::pop` on `BinaryHeap<Reverse<NonMaxUsize>>`: removes and returns
the minimum element (the maximum in `Reverse` order). -/
def heapPopMin (h : List Nat) : Option (Nat × List Nat) :=
  match h.min? with
  | none => none
  | some m => some (m, h.erase m)

/-- `struct ThreadIdAllocator` from `live.rs`: the mutex-protected shared state. -/
structure ThreadIdAllocator where
  next_id : Nat
  free_list : List Nat
deriving DecidableEq, Repr

/-- The allocator built by `ThreadIdAllocator::lazy_init`'s inner `init`:
`free_list: BinaryHeap::new(), next_id: NonMaxUsize::ZERO`. -/
def ThreadIdAllocator.init : ThreadIdAllocator := ⟨0, []⟩

/-- `ThreadIdAllocator::lazy_init`: `lock.get_or_insert_with(init)`.
The `static ALLOCATOR: Mutex<Option<ThreadIdAllocator>>` content is the
`Option ThreadIdAllocator` argument. -/
def ThreadIdAllocator.lazy_init (lock : Option ThreadIdAllocator) : ThreadIdAllocator :=
  lock.getD ThreadIdAllocator.init

/-- State of the `GUARD: OnceCell<ThreadGuard>` thread local of one thread:
never set, set with a `ThreadGuard` carrying an id, or already destroyed
(so that `try_with` fails). -/
inductive GuardSlot where
  | empty
  | set (id : Nat)
  | destroyed
deriving DecidableEq, Repr

/-- `LiveThreadId::alloc` acting on the calling thread's `GUARD` slot and the
global `ALLOCATOR` mutex content.  Panics are `Except.error` with the source's
panic message.  On success it returns the new id, the updated guard slot and
the updated allocator. -/
def LiveThreadId.alloc (guard : GuardSlot) (galloc : Option ThreadIdAllocator) :
    Except String (Nat × GuardSlot × ThreadIdAllocator) :=
  match guard with
  | .destroyed => .error "thread already destroyed"
  | .set _ => .error "already initialized"
  | .empty =>
    let a := ThreadIdAllocator.lazy_init galloc
    match heapPopMin a.free_list with
    | some (existing, rest) => .ok (existing, .set existing, ⟨a.next_id, rest⟩)
    | none =>
      match (usizeCheckedAdd a.next_id 1).bind NonMaxUsize.new with
      | none => .error "LiveThreadId overflowed a usize"
      | some n => .ok (a.next_id, .set a.next_id, ⟨n, a.free_list⟩)

/-- The two thread locals of one thread used by the live strategy:
`LIVE_ID: Cell<Option<LiveThreadId>>` and `GUARD: OnceCell<ThreadGuard>`. -/
structure ThreadLocals where
  live_id : Option Nat
  guard : GuardSlot
deriving DecidableEq, Repr

/-- `LiveThreadId::current`: return the cached id if the `LIVE_ID` cell is set,
otherwise allocate, cache and return. -/
def LiveThreadId.current (t : ThreadLocals) (galloc : Option ThreadIdAllocator) :
    Except String (Nat × ThreadLocals × Option ThreadIdAllocator) :=
  match t.live_id with
  | some existing => .ok (existing, t, galloc)
  | none =>
    match LiveThreadId.alloc t.guard galloc with
    | .error e => .error e
    | .ok (new_id, g, a) => .ok (new_id, ⟨some new_id, g⟩, some a)

/-- `ThreadGuard::drop`: clear the thread's `LIVE_ID` cell and push the
guard's id back onto the free list (after `lazy_init`).  Returns the new cell
content (always `none`) and the new allocator. -/
def ThreadGuard.drop (id : Nat) (_live_id : Option Nat) (galloc : Option ThreadIdAllocator) :
    Option Nat × ThreadIdAllocator :=
  let a := ThreadIdAllocator.lazy_init galloc
  (none, ⟨a.next_id, heapPushMin id a.free_list⟩)

/-- `n` successive `LiveThreadId::alloc` calls, each on a fresh thread
(empty guard slot), threading the global allocator through; collects the
issued ids in order.  `none` models a panic in some allocation. -/
def allocFreshN : Nat → Option ThreadIdAllocator →
    Option (List Nat × Option ThreadIdAllocator)
  | 0, ga => some ([], ga)
  | n + 1, ga =>
    match LiveThreadId.alloc .empty ga with
    | .error _ => none
    | .ok (id, _, a) =>
      match allocFreshN n (some a) with
      | none => none
      | some (ids, ga2) => some (id :: ids, ga2)

/-- `NonZeroU64` from `core::num`. -/
def NonZeroU64 : Type := {v : Nat // v ≠ 0}

/-- `NonZeroU64::new`. -/
def NonZeroU64.new (x : Nat) : Option NonZeroU64 :=
  if h : x = 0 then none else some ⟨x, h⟩

/-- `NonZeroU64::get`. -/
def NonZeroU64.get (v : NonZeroU64) : Nat := v.val

instance : DecidableEq NonZeroU64 := fun a b =>
  decidable_of_iff (a.val = b.val) Subtype.ext_iff.symm

/-- `pub struct UniqueThreadId(NonZeroU64)` from `unique.rs`. -/
structure UniqueThreadId where
  raw : NonZeroU64
deriving DecidableEq

/-- `UniqueThreadId::to_int`: `self.0.get()`. -/
def UniqueThreadId.to_int (id : UniqueThreadId) : Nat := id.raw.get

/-- `UniqueThreadId::from_int`: `NonZeroU64::new_unchecked(x)`; the `unsafe`
precondition (the argument is nonzero, as any `to_int` result is) becomes an
explicit proof obligation. -/
def UniqueThreadId.from_int (x : Nat) (h : x ≠ 0) : UniqueThreadId := ⟨⟨x, h⟩⟩

/-- Initial value of `static NEXT_ID: AtomicU64 = AtomicU64::new(1)`. -/
def UniqueThreadId.NEXT_ID_initial : Nat := 1

/-- `UniqueThreadId::alloc` acting on the `NEXT_ID` counter value: a
`fetch_update` with `checked_add(1)` (panic `"id overflow"` on failure via
`expect`), returning the old value wrapped by `NonZeroU64::new(..).unwrap()`.
`none` models either panic. -/
def UniqueThreadId.alloc (next_id : Nat) : Option (UniqueThreadId × Nat) :=
  match u64CheckedAdd next_id 1 with
  | none => none
  | some updated =>
    match NonZeroU64.new next_id with
    | none => none
    | some v => some (⟨v⟩, updated)

/-- `UniqueThreadId::current` (default configuration, no `nightly`): return
the cached id if the `THREAD_ID` cell is set, otherwise allocate from the
counter, cache and return. -/
def UniqueThreadId.current (cell : Option UniqueThreadId) (next_id : Nat) :
    Option (UniqueThreadId × Option UniqueThreadId × Nat) :=
  match cell with
  | none =>
    match UniqueThreadId.alloc next_id with
    | none => none
    | some (id, updated) => some (id, some id, updated)
  | some id => some (id, some id, next_id)

/-- One step of the `NEXT_ID` counter: some successful `UniqueThreadId::alloc`
moved it from `c` to `c2`.  The counter is touched by no other operation. -/
def UniqueThreadId.step (c c2 : Nat) : Prop :=
  ∃ id, UniqueThreadId.alloc c = some (id, c2)

/-- `StdThreadId::acquire`: the platform lookup `std::thread::current().id()`,
an opaque per-thread constant, passed in as a parameter. -/
def StdThreadId.acquire (platform_id : Nat) : Nat := platform_id

/-- `StdThreadId::current` (default configuration, no `nightly`): return the
cached id if the `STD_TID` cell is set, otherwise acquire, cache and return. -/
def StdThreadId.current (platform_id : Nat) (cell : Option Nat) : Nat × Option Nat :=
  match cell with
  | none =>
    let new_id := StdThreadId.acquire platform_id
    (new_id, some new_id)
  | some existing => (existing, some existing)

/-- Whole-process view of the reuse allocator: the `ALLOCATOR` mutex content
plus the multiset of ids currently held by live threads' installed guards. -/
structure SysState where
  galloc : Option ThreadIdAllocator
  live : List Nat

/-- The allocator a system state denotes once lazily initialized. -/
def SysState.alloc_state (s : SysState) : ThreadIdAllocator :=
  ThreadIdAllocator.lazy_init s.galloc

/-- Process start: allocator not yet initialized, no live guard holds an id. -/
def SysState.start : SysState := ⟨none, []⟩

/-- The operations of `live.rs` that touch the shared allocator: a first
`current()` call on some thread with an empty guard slot (`LiveThreadId::alloc`),
and the teardown of some live thread's guard (`ThreadGuard::drop`). -/
inductive SysStep : SysState → SysState → Prop where
  | alloc (s : SysState) (id : Nat) (g : GuardSlot) (a : ThreadIdAllocator)
      (h : LiveThreadId.alloc .empty s.galloc = .ok (id, g, a)) :
      SysStep s ⟨some a, id :: s.live⟩
  | drop (s : SysState) (id : Nat) (h : id ∈ s.live) :
      SysStep s ⟨some (ThreadGuard.drop id (some id) s.galloc).2, s.live.erase id⟩

/-- The invariant exactly as the spec states it: every id below `next_id` is
either held by exactly one live thread and absent from the free list, or
present exactly once in the free list and held by no live thread. -/
def SysState.claim_inv (s : SysState) : Prop :=
  ∀ id, id < s.alloc_state.next_id →
    (s.live.count id = 1 ∧ s.alloc_state.free_list.count id = 0) ∨
    (s.live.count id = 0 ∧ s.alloc_state.free_list.count id = 1)

/-- Strengthened inductive invariant: below `next_id` the live and free
multiplicities sum to one; at or above `next_id` both are zero. -/
def SysState.full_inv (s : SysState) : Prop :=
  (∀ id, id < s.alloc_state.next_id →
    s.live.count id + s.alloc_state.free_list.count id = 1) ∧
  (∀ id, s.alloc_state.next_id ≤ id →
    s.live.count id = 0 ∧ s.alloc_state.free_list.count id = 0)

/-- Labels for the operations a single thread can perform against the live
strategy, used to state that only guard teardown grows the free list. -/
inductive LiveOp where
  | current
  | guardDrop
deriving DecidableEq, Repr

/-- Labeled small-step semantics of one thread interacting with the live
strategy: a `current()` call (cached or allocating), or the thread's guard
teardown.  The `Nat` component is the id the operation concerns. -/
inductive LiveStep : LiveOp → ThreadLocals × Option ThreadIdAllocator → Nat →
    ThreadLocals × Option ThreadIdAllocator → Prop where
  | current (t : ThreadLocals) (ga : Option ThreadIdAllocator) (v : Nat)
      (t2 : ThreadLocals) (ga2 : Option ThreadIdAllocator)
      (h : LiveThreadId.current t ga = .ok (v, t2, ga2)) :
      LiveStep .current (t, ga) v (t2, ga2)
  | guardDrop (t : ThreadLocals) (ga : Option ThreadIdAllocator) (id : Nat)
      (h : t.guard = .set id) :
      LiveStep .guardDrop (t, ga) id
        (⟨(ThreadGuard.drop id t.live_id ga).1, .destroyed⟩,
         some (ThreadGuard.drop id t.live_id ga).2)

/-- Well-formedness inherited from the `NonMaxUsize` types of `live.rs`:
`next_id` and every free-list element are below the sentinel. -/
def ThreadIdAllocator.wf (a : ThreadIdAllocator) : Prop :=
  a.next_id < USIZE_MAX ∧ ∀ x ∈ a.free_list, x < USIZE_MAX

/-! ### Helper lemmas -/

lemma lazy_init_none : ThreadIdAllocator.lazy_init none = ThreadIdAllocator.init := rfl

lemma lazy_init_some (a : ThreadIdAllocator) : ThreadIdAllocator.lazy_init (some a) = a := rfl

/-- Case analysis of a successful `LiveThreadId::alloc` on an empty guard slot:
either the minimum of the free list was popped, or (free list empty) `next_id`
was issued and advanced, with the overflow checks known to have passed. -/
lemma alloc_empty_ok_cases (ga : Option ThreadIdAllocator) (id : Nat) (g : GuardSlot)
    (a2 : ThreadIdAllocator)
    (h : LiveThreadId.alloc .empty ga = .ok (id, g, a2)) :
    g = .set id ∧
    (((ThreadIdAllocator.lazy_init ga).free_list.min? = some id ∧
        a2 = ⟨(ThreadIdAllocator.lazy_init ga).next_id,
              (ThreadIdAllocator.lazy_init ga).free_list.erase id⟩) ∨
      ((ThreadIdAllocator.lazy_init ga).free_list = [] ∧
        id = (ThreadIdAllocator.lazy_init ga).next_id ∧
        id + 1 < USIZE_MAX ∧ a2 = ⟨id + 1, []⟩)) := by
  simp only [LiveThreadId.alloc, heapPopMin] at h
  set a := ThreadIdAllocator.lazy_init ga with ha
  cases hm : a.free_list.min? with
  | some m =>
    rw [hm] at h
    simp only [Except.ok.injEq, Prod.mk.injEq] at h
    obtain ⟨h1, h2, h3⟩ := h
    subst h1
    exact ⟨h2.symm, Or.inl ⟨rfl, h3.symm⟩⟩
  | none =>
    rw [hm] at h
    rw [List.min?_eq_none_iff] at hm
    cases hc : (usizeCheckedAdd a.next_id 1).bind NonMaxUsize.new with
    | none => rw [hc] at h; exact absurd h (by simp)
    | some n =>
      rw [hc] at h
      simp only [Except.ok.injEq, Prod.mk.injEq] at h
      obtain ⟨h1, h2, h3⟩ := h
      subst h1
      unfold usizeCheckedAdd NonMaxUsize.new at hc
      refine ⟨h2.symm, Or.inr ⟨hm, rfl, ?_, ?_⟩⟩
      · by_cases hle : a.next_id + 1 ≤ USIZE_MAX
        · by_cases he : a.next_id + 1 = USIZE_MAX
          · rw [if_pos hle, Option.some_bind, if_pos he] at hc
            exact absurd hc (by simp)
          · omega
        · simp [hle] at hc
      · by_cases hle : a.next_id + 1 ≤ USIZE_MAX
        · rw [if_pos hle, Option.some_bind] at hc
          by_cases he : a.next_id + 1 = USIZE_MAX
          · simp [he] at hc
          · rw [if_neg he] at hc
            obtain rfl : a.next_id + 1 = n := Option.some.inj hc
            rw [← h3, hm]
        · simp [hle] at hc

/-- Fresh-id path of `LiveThreadId::alloc`: empty free list, no overflow. -/
lemma alloc_empty_fresh (a : ThreadIdAllocator) (hf : a.free_list = [])
    (hn : a.next_id + 1 < USIZE_MAX) :
    LiveThreadId.alloc .empty (some a) =
      .ok (a.next_id, .set a.next_id, ⟨a.next_id + 1, []⟩) := by
  simp only [LiveThreadId.alloc, heapPopMin, lazy_init_some, hf, List.min?_nil,
    usizeCheckedAdd, NonMaxUsize.new]
  rw [if_pos (by omega : a.next_id + 1 ≤ USIZE_MAX), Option.some_bind,
    if_neg (by omega : ¬a.next_id + 1 = USIZE_MAX)]

/-- Reuse path of `LiveThreadId::alloc`: the free-list minimum is popped. -/
lemma alloc_empty_pop (a : ThreadIdAllocator) (m : Nat) (hm : a.free_list.min? = some m) :
    LiveThreadId.alloc .empty (some a) =
      .ok (m, .set m, ⟨a.next_id, a.free_list.erase m⟩) := by
  simp only [LiveThreadId.alloc, heapPopMin, lazy_init_some, hm]

/-- A run of fresh allocations from an empty free list issues consecutive ids. -/
lemma allocFreshN_fresh_run (n : Nat) : ∀ s : Nat, s + n < USIZE_MAX →
    allocFreshN n (some ⟨s, []⟩) = some (List.range' s n, some ⟨s + n, []⟩) := by
  induction n with
  | zero => intro s _; rfl
  | succ n ih =>
    intro s h
    rw [allocFreshN, alloc_empty_fresh ⟨s, []⟩ rfl (by simpa using by omega)]
    show (match allocFreshN n (some ⟨s + 1, []⟩) with
      | none => none
      | some (ids, ga2) => some (s :: ids, ga2)) = _
    rw [ih (s + 1) (by omega)]
    have hsn : s + 1 + n = s + (n + 1) := by omega
    rw [List.range'_succ, hsn]

lemma min?_mem_nat {l : List Nat} {m : Nat} (h : l.min? = some m) : m ∈ l :=
  (List.min?_eq_some_iff'.mp h).1

lemma min?_le_nat {l : List Nat} {m x : Nat} (h : l.min? = some m) (hx : x ∈ l) : m ≤ x :=
  (List.min?_eq_some_iff'.mp h).2 x hx

lemma alloc_state_some (a : ThreadIdAllocator) (live : List Nat) :
    (SysState.mk (some a) live).alloc_state = a := rfl

/-- The initial system state satisfies the strengthened invariant. -/
lemma full_inv_start : SysState.start.full_inv := by
  constructor
  · intro id hid
    simp [SysState.alloc_state, SysState.start, ThreadIdAllocator.lazy_init,
      ThreadIdAllocator.init] at hid
  · intro id _
    simp [SysState.start, SysState.alloc_state, ThreadIdAllocator.lazy_init,
      ThreadIdAllocator.init]

/-- Every `SysStep` (allocation or guard teardown) preserves the invariant. -/
lemma full_inv_preserved (s s2 : SysState) (hs : s.full_inv) (hstep : SysStep s s2) :
    s2.full_inv := by
  obtain ⟨h1, h2⟩ := hs
  simp only [SysState.alloc_state] at h1 h2
  cases hstep with
  | alloc id g a h =>
    obtain ⟨-, hcase⟩ := alloc_empty_ok_cases s.galloc id g a h
    rcases hcase with ⟨hmin, rfl⟩ | ⟨hfree, hid, hlt, rfl⟩
    · set A := ThreadIdAllocator.lazy_init s.galloc with hA
      have hmem : id ∈ A.free_list := min?_mem_nat hmin
      have hpos : 0 < A.free_list.count id := List.count_pos_iff.mpr hmem
      have hid_lt : id < A.next_id := by
        by_contra hge
        exact absurd (h2 id (by omega)).2 (by omega)
      constructor
      · intro x hx
        simp only [SysState.alloc_state, lazy_init_some] at hx ⊢
        by_cases hxid : x = id
        · subst hxid
          have := h1 x hid_lt
          simp only [List.count_cons_self, List.count_erase_self]
          omega
        · have hcons : (id :: s.live).count x = s.live.count x :=
            List.count_cons_of_ne hxid _
          have herase : (A.free_list.erase id).count x = A.free_list.count x :=
            List.count_erase_of_ne hxid _
          have := h1 x hx
          simp only [hcons, herase]
          omega
      · intro x hx
        simp only [SysState.alloc_state, lazy_init_some] at hx ⊢
        have hxid : x ≠ id := by omega
        have hcons : (id :: s.live).count x = s.live.count x :=
          List.count_cons_of_ne hxid _
        have herase : (A.free_list.erase id).count x = A.free_list.count x :=
          List.count_erase_of_ne hxid _
        have := h2 x hx
        simp only [hcons, herase]
        omega
    · set A := ThreadIdAllocator.lazy_init s.galloc with hA
      subst hid
      constructor
      · intro x hx
        simp only [SysState.alloc_state, lazy_init_some] at hx ⊢
        by_cases hxid : x = A.next_id
        · subst hxid
          have := h2 A.next_id (le_refl A.next_id)
          simp only [List.count_cons_self, List.count_nil]
          omega
        · have hcons : (A.next_id :: s.live).count x = s.live.count x :=
            List.count_cons_of_ne hxid _
          have hx2 : x < A.next_id := by omega
          have := h1 x hx2
          have hfc : A.free_list.count x = 0 := by rw [hfree]; rfl
          simp only [hcons, List.count_nil]
          omega
      · intro x hx
        simp only [SysState.alloc_state, lazy_init_some] at hx ⊢
        have hxid : x ≠ A.next_id := by omega
        have hcons : (A.next_id :: s.live).count x = s.live.count x :=
          List.count_cons_of_ne hxid _
        have := h2 x (by omega)
        simp only [hcons, List.count_nil]
        exact ⟨this.1, trivial⟩
  | drop id hmem =>
    set A := ThreadIdAllocator.lazy_init s.galloc with hA
    have hpos : 0 < s.live.count id := List.count_pos_iff.mpr hmem
    have hid_lt : id < A.next_id := by
      by_contra hge
      exact absurd (h2 id (by omega)).1 (by omega)
    have hdrop : (ThreadGuard.drop id (some id) s.galloc).2 =
        ⟨A.next_id, id :: A.free_list⟩ := rfl
    rw [hdrop]
    constructor
    · intro x hx
      simp only [SysState.alloc_state, lazy_init_some] at hx ⊢
      by_cases hxid : x = id
      · subst hxid
        have := h1 x hid_lt
        simp only [List.count_erase_self, List.count_cons_self]
        omega
      · have hcons : (id :: A.free_list).count x = A.free_list.count x :=
          List.count_cons_of_ne hxid _
        have herase : (s.live.erase id).count x = s.live.count x :=
          List.count_erase_of_ne hxid _
        have := h1 x hx
        simp only [hcons, herase]
        omega
    · intro x hx
      simp only [SysState.alloc_state, lazy_init_some] at hx ⊢
      have hxid : x ≠ id := by omega
      have hcons : (id :: A.free_list).count x = A.free_list.count x :=
        List.count_cons_of_ne hxid _
      have herase : (s.live.erase id).count x = s.live.count x :=
        List.count_erase_of_ne hxid _
      have := h2 x hx
      simp only [hcons, herase]
      omega

/-- The strengthened invariant implies the invariant as the spec states it. -/
lemma full_inv_claim_inv (s : SysState) (hs : s.full_inv) : s.claim_inv := by
  intro id hid
  have := hs.1 id hid
  omega

/-- Anatomy of a successful `UniqueThreadId::alloc`: the issued id is the old
counter value, the counter advances by exactly one, and the checks passed. -/
lemma unique_alloc_some (c : Nat) (id : UniqueThreadId) (c2 : Nat)
    (h : UniqueThreadId.alloc c = some (id, c2)) :
    id.to_int = c ∧ c2 = c + 1 ∧ c ≠ 0 ∧ c + 1 ≤ U64_MAX := by
  cases hc : u64CheckedAdd c 1 with
  | none => simp [UniqueThreadId.alloc, hc] at h
  | some updated =>
    cases hz : NonZeroU64.new c with
    | none => simp [UniqueThreadId.alloc, hc, hz] at h
    | some v =>
      simp only [UniqueThreadId.alloc, hc, hz, Option.some.injEq, Prod.mk.injEq] at h
      obtain ⟨h1, h2⟩ := h
      unfold u64CheckedAdd at hc
      unfold NonZeroU64.new at hz
      have hle : c + 1 ≤ U64_MAX := by
        by_contra hgt
        rw [if_neg hgt] at hc
        cases hc
      rw [if_pos hle] at hc
      have hz0 : c ≠ 0 := by
        by_contra h0
        rw [dif_pos h0] at hz
        cases hz
      rw [dif_neg hz0] at hz
      refine ⟨?_, ?_, hz0, hle⟩
      · rw [← h1, ← Option.some.inj hz]
        rfl
      · rw [← h2, ← Option.some.inj hc]

/-- A counter step strictly increases the counter. -/
lemma unique_step_lt (c c2 : Nat) (h : UniqueThreadId.step c c2) : c < c2 := by
  obtain ⟨id, h⟩ := h
  obtain ⟨-, h2, -, -⟩ := unique_alloc_some c id c2 h
  omega

/-- Any sequence of counter steps is monotone. -/
lemma unique_reach_le (c c2 : Nat) (h : Relation.ReflTransGen UniqueThreadId.step c c2) :
    c ≤ c2 := by
  induction h with
  | refl => exact le_refl _
  | tail _ hbc ih => exact le_of_lt (lt_of_le_of_lt ih (unique_step_lt _ _ hbc))

/-- A successful allocation never increases any free-list multiplicity. -/
lemma alloc_free_count_le (ga : Option ThreadIdAllocator) (id : Nat) (g : GuardSlot)
    (a2 : ThreadIdAllocator) (x : Nat)
    (h : LiveThreadId.alloc .empty ga = .ok (id, g, a2)) :
    a2.free_list.count x ≤ (ThreadIdAllocator.lazy_init ga).free_list.count x := by
  obtain ⟨-, hcase⟩ := alloc_empty_ok_cases ga id g a2 h
  rcases hcase with ⟨hmin, rfl⟩ | ⟨hfree, hid, hlt, rfl⟩
  · by_cases hxid : x = id
    · subst hxid
      simp only [List.count_erase_self]
      omega
    · simp only [List.count_erase_of_ne hxid]
      exact le_refl _
  · simp [hfree]

/-! ### Claim theorems -/

/-- Claim C1: a first call on a thread when the free list is non-empty removes
the minimum element of the free list and returns it as the thread's id; after
releasing 3 then 1 (out of order), the next allocation yields 1, not 3. -/
theorem LiveThreadId.alloc_pops_minimum :
    (∀ a : ThreadIdAllocator, a.free_list ≠ [] →
      ∃ m, m ∈ a.free_list ∧ (∀ x ∈ a.free_list, m ≤ x) ∧
        LiveThreadId.alloc .empty (some a) =
          .ok (m, .set m, ⟨a.next_id, a.free_list.erase m⟩)) ∧
    (∀ a : ThreadIdAllocator, a.free_list = [] →
      LiveThreadId.alloc .empty
          (some (ThreadGuard.drop 1 none (some (ThreadGuard.drop 3 none (some a)).2)).2) =
        .ok (1, .set 1, ⟨a.next_id, [3]⟩)) := by
  constructor
  · intro a hne
    cases hm : a.free_list.min? with
    | none => exact absurd (List.min?_eq_none_iff.mp hm) hne
    | some m =>
      exact ⟨m, min?_mem_nat hm, fun x hx => min?_le_nat hm hx, alloc_empty_pop a m hm⟩
  · intro a hfree
    have h1 : (ThreadGuard.drop 3 none (some a)).2 = ⟨a.next_id, [3]⟩ := by
      simp [ThreadGuard.drop, heapPushMin, lazy_init_some, hfree]
    rw [h1]
    have h2 : (ThreadGuard.drop 1 none (some (⟨a.next_id, [3]⟩ : ThreadIdAllocator))).2 =
        ⟨a.next_id, [1, 3]⟩ := rfl
    rw [h2]
    have h3 : ([1, 3] : List Nat).min? = some 1 := by decide
    have h4 := alloc_empty_pop ⟨a.next_id, [1, 3]⟩ 1 h3
    simpa using h4

/-- Witness for C1 at a concrete allocator. -/
theorem LiveThreadId.alloc_pops_minimum_witness :
    (∃ m, m ∈ ((⟨4, [3, 1]⟩ : ThreadIdAllocator)).free_list ∧
      (∀ x ∈ ((⟨4, [3, 1]⟩ : ThreadIdAllocator)).free_list, m ≤ x) ∧
      LiveThreadId.alloc .empty (some ⟨4, [3, 1]⟩) =
        .ok (m, .set m, ⟨4, (([3, 1] : List Nat)).erase m⟩)) ∧
    LiveThreadId.alloc .empty
        (some (ThreadGuard.drop 1 none (some (ThreadGuard.drop 3 none (some ⟨4, []⟩)).2)).2) =
      .ok (1, .set 1, ⟨4, [3]⟩) :=
  ⟨LiveThreadId.alloc_pops_minimum.1 ⟨4, [3, 1]⟩ (by decide),
   LiveThreadId.alloc_pops_minimum.2 ⟨4, []⟩ rfl⟩

/-- Claim C2: every state reachable from process start through allocations and
release-hook teardowns satisfies the invariant: each id strictly below
`next_id` is either held by exactly one live thread or present exactly once in
the free list, never both. -/
theorem LiveThreadId.reachable_claim_inv (s : SysState)
    (h : Relation.ReflTransGen SysStep SysState.start s) : s.claim_inv := by
  refine full_inv_claim_inv s ?_
  induction h with
  | refl => exact full_inv_start
  | tail _ hbc ih => exact full_inv_preserved _ _ ih hbc

/-- Witness for C2 after one concrete allocation step. -/
theorem LiveThreadId.reachable_claim_inv_witness :
    (SysState.mk (some ⟨1, []⟩) [0]).claim_inv :=
  LiveThreadId.reachable_claim_inv _
    (Relation.ReflTransGen.single (SysStep.alloc SysState.start 0 (.set 0) ⟨1, []⟩ rfl))

/-- Claim C3: ids minted by the monotonic allocator are unique across the
process lifetime: an id allocated now differs from any id allocated after any
further sequence of allocations, so a value is never reissued. -/
theorem UniqueThreadId.ids_distinct (c c1 c2 c3 : Nat) (id1 id2 : UniqueThreadId)
    (h1 : UniqueThreadId.alloc c = some (id1, c1))
    (hreach : Relation.ReflTransGen UniqueThreadId.step c1 c2)
    (h2 : UniqueThreadId.alloc c2 = some (id2, c3)) :
    id1 ≠ id2 := by
  obtain ⟨e1, f1, -, -⟩ := unique_alloc_some c id1 c1 h1
  obtain ⟨e2, -, -, -⟩ := unique_alloc_some c2 id2 c3 h2
  have hle := unique_reach_le c1 c2 hreach
  intro heq
  rw [heq] at e1
  omega

/-- Witness for C3 at the first two allocations of a run. -/
theorem UniqueThreadId.ids_distinct_witness :
    UniqueThreadId.from_int 1 (by decide) ≠ UniqueThreadId.from_int 2 (by decide) :=
  UniqueThreadId.ids_distinct 1 2 2 3 _ _ rfl Relation.ReflTransGen.refl rfl

/-- Claim C4: with an empty free list, a first call returns the current
`next_id` and advances it by one; `next_id` starts at zero, so absent releases
the issued ids are `0, 1, 2, ...` in allocation order. -/
theorem LiveThreadId.fresh_ids_sequential :
    (ThreadIdAllocator.init.next_id = 0 ∧ ThreadIdAllocator.init.free_list = []) ∧
    (∀ a : ThreadIdAllocator, a.free_list = [] → a.next_id + 1 < USIZE_MAX →
      LiveThreadId.alloc .empty (some a) =
        .ok (a.next_id, .set a.next_id, ⟨a.next_id + 1, []⟩)) ∧
    (∀ n : Nat, n < USIZE_MAX → ∃ ga, allocFreshN n none = some (List.range n, ga)) := by
  refine ⟨⟨rfl, rfl⟩, alloc_empty_fresh, ?_⟩
  intro n hn
  cases n with
  | zero => exact ⟨none, rfl⟩
  | succ n =>
    refine ⟨some ⟨1 + n, []⟩, ?_⟩
    rw [allocFreshN]
    have h0 : LiveThreadId.alloc .empty none = .ok (0, .set 0, ⟨1, []⟩) := rfl
    rw [h0]
    show (match allocFreshN n (some ⟨1, []⟩) with
      | none => none
      | some (ids, ga2) => some ((0 : Nat) :: ids, ga2)) = _
    rw [allocFreshN_fresh_run n 1 (by omega)]
    rw [List.range_eq_range', List.range'_succ]

/-- Witness for C4: three fresh allocations yield `[0, 1, 2]`, and one fresh
step from `next_id = 5` yields 5 and advances to 6. -/
theorem LiveThreadId.fresh_ids_sequential_witness :
    (∃ ga, allocFreshN 3 none = some (List.range 3, ga)) ∧
    LiveThreadId.alloc .empty (some ⟨5, []⟩) = .ok (5, .set 5, ⟨6, []⟩) :=
  ⟨LiveThreadId.fresh_ids_sequential.2.2 3 (by decide),
   LiveThreadId.fresh_ids_sequential.2.1 ⟨5, []⟩ rfl (by decide)⟩

/-- Claim C5: guard teardown pushes the thread's id back onto the free list
and resets the thread's cache cell to empty, and among the operations of the
live strategy it is the only one that ever increases a free-list
multiplicity. -/
theorem ThreadGuard.drop_sole_free_list_writer :
    (∀ (id : Nat) (cell : Option Nat) (ga : Option ThreadIdAllocator),
      ThreadGuard.drop id cell ga =
        (none, ⟨(ThreadIdAllocator.lazy_init ga).next_id,
                id :: (ThreadIdAllocator.lazy_init ga).free_list⟩)) ∧
    (∀ (op : LiveOp) (s s2 : ThreadLocals × Option ThreadIdAllocator) (v x : Nat),
      LiveStep op s v s2 →
      (ThreadIdAllocator.lazy_init s.2).free_list.count x <
        (ThreadIdAllocator.lazy_init s2.2).free_list.count x →
      op = .guardDrop) := by
  constructor
  · intro id cell ga
    rfl
  · intro op s s2 v x hstep hgrow
    cases hstep with
    | current t ga v2 t2 ga2 h =>
      exfalso
      dsimp only at hgrow
      cases hl : t.live_id with
      | some existing =>
        unfold LiveThreadId.current at h
        rw [hl] at h
        simp only [Except.ok.injEq, Prod.mk.injEq] at h
        obtain ⟨-, -, h3⟩ := h
        rw [← h3] at hgrow
        exact lt_irrefl _ hgrow
      | none =>
        unfold LiveThreadId.current at h
        rw [hl] at h
        cases ha : LiveThreadId.alloc t.guard ga with
        | error e =>
          rw [ha] at h
          simp at h
        | ok r =>
          obtain ⟨nid, g, a⟩ := r
          rw [ha] at h
          simp only [Except.ok.injEq, Prod.mk.injEq] at h
          obtain ⟨-, -, h3⟩ := h
          cases hg : t.guard with
          | empty =>
            rw [hg] at ha
            have hle := alloc_free_count_le ga nid g a x ha
            rw [← h3, lazy_init_some] at hgrow
            omega
          | set k =>
            rw [hg] at ha
            have hek : LiveThreadId.alloc (.set k) ga = .error "already initialized" := rfl
            rw [hek] at ha
            cases ha
          | destroyed =>
            rw [hg] at ha
            have hed : LiveThreadId.alloc .destroyed ga =
                .error "thread already destroyed" := rfl
            rw [hed] at ha
            cases ha
    | guardDrop t ga id h => rfl

/-- Witness for C5: a concrete teardown grows the free list and is labeled as
a teardown. -/
theorem ThreadGuard.drop_sole_free_list_writer_witness :
    ThreadGuard.drop 5 (some 5) (some ⟨6, []⟩) = (none, ⟨6, [5]⟩) ∧
    LiveOp.guardDrop = LiveOp.guardDrop :=
  ⟨ThreadGuard.drop_sole_free_list_writer.1 5 (some 5) (some ⟨6, []⟩),
   ThreadGuard.drop_sole_free_list_writer.2 .guardDrop
     (⟨some 5, .set 5⟩, some ⟨6, []⟩) (⟨none, .destroyed⟩, some ⟨6, [5]⟩) 5 5
     (LiveStep.guardDrop ⟨some 5, .set 5⟩ (some ⟨6, []⟩) 5 rfl) (by decide)⟩

/-- Claim C6: exhaustion is fatal and never wraps: the monotonic allocator
panics exactly when its 64-bit counter sits at `u64::MAX` (otherwise the
counter advances by exactly one), and with an empty free list the reuse
allocator panics exactly when advancing `next_id` would reach the sentinel
`usize::MAX`; the sentinel itself is never issued as an id. -/
theorem exhaustion_is_fatal :
    (∀ c : Nat, 1 ≤ c → c ≤ U64_MAX →
      (UniqueThreadId.alloc c = none ↔ c = U64_MAX)) ∧
    (∀ (c : Nat) (id : UniqueThreadId) (c2 : Nat),
      UniqueThreadId.alloc c = some (id, c2) → id.to_int = c ∧ c2 = c + 1) ∧
    (∀ a : ThreadIdAllocator, a.wf → a.free_list = [] →
      ((∃ e, LiveThreadId.alloc .empty (some a) = .error e) ↔
        a.next_id + 1 = USIZE_MAX)) ∧
    (∀ (a : ThreadIdAllocator) (id : Nat) (g : GuardSlot) (a2 : ThreadIdAllocator),
      a.wf → LiveThreadId.alloc .empty (some a) = .ok (id, g, a2) →
      id ≠ USIZE_MAX) := by
  refine ⟨?_, ?_, ?_, ?_⟩
  · intro c hpos hle
    constructor
    · intro hnone
      by_contra hne
      have hc : u64CheckedAdd c 1 = some (c + 1) := by
        unfold u64CheckedAdd
        rw [if_pos (by omega)]
      have hz : NonZeroU64.new c = some ⟨c, by omega⟩ := by
        unfold NonZeroU64.new
        rw [dif_neg (by omega)]
      simp [UniqueThreadId.alloc, hc, hz] at hnone
    · intro hmax
      subst hmax
      have hc : u64CheckedAdd U64_MAX 1 = none := by
        unfold u64CheckedAdd
        rw [if_neg (by omega)]
      simp [UniqueThreadId.alloc, hc]
  · intro c id c2 h
    exact ⟨(unique_alloc_some c id c2 h).1, (unique_alloc_some c id c2 h).2.1⟩
  · intro a hwf hfree
    obtain ⟨hn, -⟩ := hwf
    constructor
    · rintro ⟨e, he⟩
      by_contra hne
      rw [alloc_empty_fresh a hfree (by omega)] at he
      simp at he
    · intro hmax
      refine ⟨"LiveThreadId overflowed a usize", ?_⟩
      simp only [LiveThreadId.alloc, heapPopMin, lazy_init_some, hfree, List.min?_nil,
        usizeCheckedAdd]
      rw [if_pos (by omega), Option.some_bind]
      unfold NonMaxUsize.new
      rw [if_pos hmax]
  · intro a id g a2 hwf h
    obtain ⟨-, hcase⟩ := alloc_empty_ok_cases (some a) id g a2 h
    rcases hcase with ⟨hmin, -⟩ | ⟨-, hid, -, -⟩
    · rw [lazy_init_some] at hmin
      have := hwf.2 id (min?_mem_nat hmin)
      omega
    · rw [lazy_init_some] at hid
      have := hwf.1
      omega

/-- Witness for C6 at concrete counter and allocator values. -/
theorem exhaustion_is_fatal_witness :
    (UniqueThreadId.alloc 5 = none ↔ 5 = U64_MAX) ∧
    ((UniqueThreadId.from_int 1 (by decide)).to_int = 1 ∧ 2 = 1 + 1) ∧
    ((∃ e, LiveThreadId.alloc .empty (some ⟨3, []⟩) = .error e) ↔ 3 + 1 = USIZE_MAX) ∧
    (3 : Nat) ≠ USIZE_MAX :=
  ⟨exhaustion_is_fatal.1 5 (by decide) (by decide),
   exhaustion_is_fatal.2.1 1 (UniqueThreadId.from_int 1 (by decide)) 2 rfl,
   exhaustion_is_fatal.2.2.1 ⟨3, []⟩ ⟨by decide, by simp⟩ rfl,
   exhaustion_is_fatal.2.2.2 ⟨3, []⟩ 3 (.set 3) ⟨4, []⟩ ⟨by decide, by simp⟩ rfl⟩

/-- Claim C7: for each of the three strategies, a second `current()` call on
the same thread returns exactly the value cached by the first call. -/
theorem current_caching_idempotent :
    (∀ (pid : Nat) (cell : Option Nat) (v : Nat) (cell2 : Option Nat),
      StdThreadId.current pid cell = (v, cell2) →
      StdThreadId.current pid cell2 = (v, cell2)) ∧
    (∀ (cell : Option UniqueThreadId) (c : Nat) (id : UniqueThreadId)
      (cell2 : Option UniqueThreadId) (c2 : Nat),
      UniqueThreadId.current cell c = some (id, cell2, c2) →
      UniqueThreadId.current cell2 c2 = some (id, cell2, c2)) ∧
    (∀ (t : ThreadLocals) (ga : Option ThreadIdAllocator) (v : Nat)
      (t2 : ThreadLocals) (ga2 : Option ThreadIdAllocator),
      LiveThreadId.current t ga = .ok (v, t2, ga2) →
      LiveThreadId.current t2 ga2 = .ok (v, t2, ga2)) := by
  refine ⟨?_, ?_, ?_⟩
  · intro pid cell v cell2 h
    cases cell with
    | none =>
      simp only [StdThreadId.current, StdThreadId.acquire, Prod.mk.injEq] at h
      obtain ⟨rfl, rfl⟩ := h
      rfl
    | some e =>
      simp only [StdThreadId.current, Prod.mk.injEq] at h
      obtain ⟨rfl, rfl⟩ := h
      rfl
  · intro cell c id cell2 c2 h
    cases cell with
    | some e =>
      simp only [UniqueThreadId.current, Option.some.injEq, Prod.mk.injEq] at h
      obtain ⟨rfl, rfl, rfl⟩ := h
      rfl
    | none =>
      unfold UniqueThreadId.current at h
      cases ha : UniqueThreadId.alloc c with
      | none =>
        rw [ha] at h
        simp at h
      | some r =>
        obtain ⟨id0, u⟩ := r
        rw [ha] at h
        simp only [Option.some.injEq, Prod.mk.injEq] at h
        obtain ⟨rfl, rfl, rfl⟩ := h
        rfl
  · intro t ga v t2 ga2 h
    cases hl : t.live_id with
    | some e =>
      unfold LiveThreadId.current at h
      rw [hl] at h
      simp only [Except.ok.injEq, Prod.mk.injEq] at h
      obtain ⟨rfl, rfl, rfl⟩ := h
      unfold LiveThreadId.current
      rw [hl]
    | none =>
      unfold LiveThreadId.current at h
      rw [hl] at h
      cases ha : LiveThreadId.alloc t.guard ga with
      | error e =>
        rw [ha] at h
        simp at h
      | ok r =>
        obtain ⟨nid, g, a⟩ := r
        rw [ha] at h
        simp only [Except.ok.injEq, Prod.mk.injEq] at h
        obtain ⟨rfl, rfl, rfl⟩ := h
        rfl

/-- Witness for C7: concrete second calls for the three strategies. -/
theorem current_caching_idempotent_witness :
    StdThreadId.current 7 (some 7) = (7, some 7) ∧
    UniqueThreadId.current (some (UniqueThreadId.from_int 1 (by decide))) 2 =
      some (UniqueThreadId.from_int 1 (by decide),
            some (UniqueThreadId.from_int 1 (by decide)), 2) ∧
    LiveThreadId.current ⟨some 0, .set 0⟩ (some ⟨1, []⟩) =
      .ok (0, ⟨some 0, .set 0⟩, some ⟨1, []⟩) :=
  ⟨current_caching_idempotent.1 7 none 7 (some 7) rfl,
   current_caching_idempotent.2.1 none 1 (UniqueThreadId.from_int 1 (by decide))
     (some (UniqueThreadId.from_int 1 (by decide))) 2 rfl,
   current_caching_idempotent.2.2 ⟨none, .empty⟩ none 0 ⟨some 0, .set 0⟩
     (some ⟨1, []⟩) rfl⟩

/-- Claim C8: installing a second release hook on a thread that already has
one panics, and allocating on a thread whose guard thread-local has been
destroyed panics, rather than returning a value. -/
theorem LiveThreadId.alloc_guard_misuse_fatal :
    (∀ (k : Nat) (ga : Option ThreadIdAllocator),
      LiveThreadId.alloc (.set k) ga = .error "already initialized") ∧
    (∀ ga : Option ThreadIdAllocator,
      LiveThreadId.alloc .destroyed ga = .error "thread already destroyed") :=
  ⟨fun _ _ => rfl, fun _ => rfl⟩

/-- Claim C9: when the cache cell is already populated,
`LiveThreadId::current` returns the cached value and passes the shared
allocator state through untouched, for every allocator state. -/
theorem LiveThreadId.current_cached_frame (v : Nat) (g : GuardSlot)
    (ga : Option ThreadIdAllocator) :
    LiveThreadId.current ⟨some v, g⟩ ga = .ok (v, ⟨some v, g⟩, ga) := rfl

/-- Claim C10: `to_int` never returns zero and `from_int` inverts it. -/
theorem UniqueThreadId.from_int_to_int_round_trip (id : UniqueThreadId) :
    id.to_int ≠ 0 ∧
    ∀ h : id.to_int ≠ 0, UniqueThreadId.from_int id.to_int h = id := by
  refine ⟨id.raw.2, fun h => ?_⟩
  cases id with
  | mk raw =>
    cases raw with
    | mk v hv => rfl

/-- Witness for C10 at a concrete id. -/
theorem UniqueThreadId.from_int_to_int_round_trip_witness :
    (UniqueThreadId.mk ⟨7, by decide⟩).to_int ≠ 0 ∧
    UniqueThreadId.from_int (UniqueThreadId.mk ⟨7, by decide⟩).to_int (by decide) =
      UniqueThreadId.mk ⟨7, by decide⟩ :=
  ⟨(UniqueThreadId.from_int_to_int_round_trip (UniqueThreadId.mk ⟨7, by decide⟩)).1,
   (UniqueThreadId.from_int_to_int_round_trip (UniqueThreadId.mk ⟨7, by decide⟩)).2 (by decide)⟩
